import Mathlib

/-!
Verification development for the mentornook backend (Django REST app).

The definitions below are a shallow embedding of the connection engine,
connection query service and profile skills handling found in
`src/backend/api/models.py`, `src/backend/api/serializers.py` and
`src/backend/api/views.py`.  Users are identified by natural-number ids;
timestamps are naturals; the relational store is a list of connection
records; the database `unique_together (requester, receiver)`
constraint of `Connection.Meta` is modelled as an `integrityError` raised
by the create path exactly when an existing row has the same ordered
(requester, receiver) pair.
-/

namespace MentorNook

abbrev UserId := Nat

/-- Connection.STATUS_CHOICES in `models.py`: pending / accepted / declined. -/
inductive ConnStatus
  | pending
  | accepted
  | declined
deriving DecidableEq, Repr

/-- A row of the Connection table (`models.py`): requester, receiver,
status, `created_at` (set at creation), `accepted_at` (null until accept). -/
structure Connection where
  id : Nat
  requester : UserId
  receiver : UserId
  status : ConnStatus
  created_at : Nat
  accepted_at : Option Nat
deriving DecidableEq, Repr

/-- The relational store: the set of existing user ids (the external user
directory) and the Connection table. -/
structure Store where
  users : List UserId
  connections : List Connection
deriving DecidableEq, Repr

/-- Error classes raised by the code paths, tagged by their origin:
DRF serializer ValidationError (HTTP 400), DRF PermissionDenied (HTTP 403),
`get_object_or_404` (HTTP 404), the explicit 403 Response of the delete
view, and a database IntegrityError from a violated unique constraint. -/
inductive ApiError
  | validationError (msg : String)
  | permissionDenied (msg : String)
  | notFound
  | forbiddenResponse (msg : String)
  | integrityError
deriving DecidableEq, Repr

/-- HTTP status each error class surfaces as, per the DRF exception
handler (ValidationError 400, PermissionDenied 403, Http404 404) and the
explicit Response objects in `views.py`. -/
def ApiError.httpStatus : ApiError → Nat
  | .validationError _ => 400
  | .permissionDenied _ => 403
  | .notFound => 404
  | .forbiddenResponse _ => 403
  | .integrityError => 500

def ApiError.isPermissionDeniedErr : ApiError → Bool
  | .permissionDenied _ => true
  | _ => false

def ApiError.isNotFoundErr : ApiError → Bool
  | .notFound => true
  | _ => false

/-- Does connection `c` involve the unordered pair {a, b}?  Mirrors the
Q-object disjunction `(requester=a, receiver=b) | (requester=b, receiver=a)`
used in `ConnectionRequestSerializer.validate_user_id` and
`ProfileSerializer.get_connectionStatus`. -/
def involvesPair (c : Connection) (a b : UserId) : Bool :=
  (c.requester == a && c.receiver == b) || (c.requester == b && c.receiver == a)

/-- The existence check of `validate_user_id`: a connection over the
unordered pair with status in {pending, accepted}. -/
def existingActive (s : Store) (a b : UserId) : Bool :=
  s.connections.any fun c =>
    involvesPair c a b && (c.status == .pending || c.status == .accepted)

/-- The database-level `unique_together (requester, receiver)` check of
`Connection.Meta`: is there already a row with this exact ordered pair? -/
def orderedDup (s : Store) (a b : UserId) : Bool :=
  s.connections.any fun c => c.requester == a && c.receiver == b

/-- The DRF ValidationError raised by `validate_user_id` when a
pending/accepted connection already exists; this realises the specification
ConflictError (section 7 maps ConflictError to a 400 with an explanatory
message, which is exactly what this serializer error produces). -/
def conflictErr : ApiError :=
  .validationError "A connection with this user already exists or is pending."

/-- requestConnection: the POST /connections/request pipeline, i.e.
`ConnectionRequestSerializer.validate_user_id` (target-exists check, then
self check, then both-directions pending/accepted check) followed by
`ConnectionRequestSerializer.create`, whose `Connection.objects.create`
raises IntegrityError when the `unique_together (requester, receiver)`
constraint is violated by an existing row with the same ordered pair.
On success a new pending row with null `accepted_at` is prepended. -/
def requestConnection (s : Store) (requesterId receiverId : UserId)
    (newId ts : Nat) : Except ApiError (Store × Connection) :=
  if !(s.users.contains receiverId) then
    .error (.validationError "Target user does not exist.")
  else if requesterId == receiverId then
    .error (.validationError "You cannot send a connection request to yourself.")
  else if existingActive s requesterId receiverId then
    .error conflictErr
  else if orderedDup s requesterId receiverId then
    .error .integrityError
  else
    let c : Connection :=
      ⟨newId, requesterId, receiverId, .pending, ts, none⟩
    .ok ({ s with connections := c :: s.connections }, c)

theorem involvesPair_symm (c : Connection) (a b : UserId) :
    involvesPair c b a = involvesPair c a b := by
  simp [involvesPair, Bool.or_comm]

theorem existingActive_symm (s : Store) (a b : UserId) :
    existingActive s b a = existingActive s a b := by
  unfold existingActive
  exact congrArg s.connections.any (funext fun c => by rw [involvesPair_symm])

theorem existingActive_of_mem {s : Store} {a b : UserId} {c : Connection}
    (hmem : c ∈ s.connections) (hpair : involvesPair c a b = true)
    (hst : c.status = .pending ∨ c.status = .accepted) :
    existingActive s a b = true := by
  refine List.any_eq_true.mpr ⟨c, hmem, ?_⟩
  have hs : (c.status == ConnStatus.pending || c.status == ConnStatus.accepted) = true := by
    cases hst with
    | inl h => simp [h]
    | inr h => simp [h]
  simp [hpair, hs]

/-- C1.  For distinct users A and B: (1) a successful
`requestConnection(A,B)` stores a pending connection over the pair; and
(2) in any store state that still holds a connection over the unordered
pair {A,B} with status pending or accepted (and in which both users
exist), a further `requestConnection(A,B)` or `requestConnection(B,A)`
fails with the ConflictError validation message — the existence check
consults both orientations. -/
theorem requestConnection_conflict_both_directions (A B : UserId) (hAB : A ≠ B) :
    (∀ s s₁ nid ts c, requestConnection s A B nid ts = .ok (s₁, c) →
      c ∈ s₁.connections ∧ involvesPair c A B = true ∧ c.status = .pending) ∧
    (∀ s₂ : Store, A ∈ s₂.users → B ∈ s₂.users →
      (∃ c ∈ s₂.connections, involvesPair c A B = true ∧
        (c.status = .pending ∨ c.status = .accepted)) →
      ∀ nid ts, requestConnection s₂ A B nid ts = .error conflictErr ∧
        requestConnection s₂ B A nid ts = .error conflictErr) := by
  constructor
  · intro s s₁ nid ts c hok
    unfold requestConnection at hok
    split at hok
    · exact absurd hok (by simp)
    split at hok
    · exact absurd hok (by simp)
    split at hok
    · exact absurd hok (by simp)
    split at hok
    · exact absurd hok (by simp)
    simp only [Except.ok.injEq, Prod.mk.injEq] at hok
    obtain ⟨hs₁, hc⟩ := hok
    refine ⟨?_, ?_, ?_⟩
    · rw [← hs₁, ← hc]; exact List.mem_cons_self _ _
    · rw [← hc]; simp [involvesPair]
    · rw [← hc]
  · intro s₂ hA hB hex nid ts
    obtain ⟨c, hmem, hpair, hst⟩ := hex
    have hactAB : existingActive s₂ A B = true :=
      existingActive_of_mem hmem hpair hst
    have hactBA : existingActive s₂ B A = true := by
      rw [existingActive_symm]; exact hactAB
    have hcontA : s₂.users.contains A = true := List.elem_iff.mpr hA
    have hcontB : s₂.users.contains B = true := List.elem_iff.mpr hB
    have hABbeq : (A == B) = false := by simp [hAB]
    have hBAbeq : (B == A) = false := by simp [Ne.symm hAB]
    constructor
    · unfold requestConnection
      rw [hcontB, hABbeq, hactAB]
      simp
    · unfold requestConnection
      rw [hcontA, hBAbeq, hactBA]
      simp

/-- Concrete instance of C1: with users 1 and 2 and a stored pending
connection from 1 to 2, a repeat request 1→2 fails with ConflictError. -/
theorem requestConnection_conflict_witness :
    requestConnection ⟨[1, 2], [⟨0, 1, 2, .pending, 0, none⟩]⟩ 1 2 5 9 =
      .error conflictErr :=
  ((requestConnection_conflict_both_directions 1 2 (by decide)).2
    ⟨[1, 2], [⟨0, 1, 2, .pending, 0, none⟩]⟩ (by decide) (by decide)
    ⟨⟨0, 1, 2, .pending, 0, none⟩, by decide, by decide, Or.inl rfl⟩ 5 9).1

/-- C2.  Evaluation of the code at the failing input: users 1 and 2 with a
single stored declined connection 1→2.  The existence check of the serializer
only looks for pending/accepted rows, so validation passes, but
`Connection.objects.create(requester=1, receiver=2)` violates the
`unique_together (requester, receiver)` constraint and raises
IntegrityError — a same-direction re-request after a decline does NOT
succeed, contradicting the spec; the opposite direction 2→1 does succeed. -/
theorem requestConnection_after_decline_same_direction_fails :
    requestConnection ⟨[1, 2], [⟨0, 1, 2, .declined, 0, none⟩]⟩ 1 2 5 9 =
      .error .integrityError ∧
    requestConnection ⟨[1, 2], [⟨0, 1, 2, .declined, 0, none⟩]⟩ 2 1 5 9 =
      .ok (⟨[1, 2], [⟨5, 2, 1, .pending, 9, none⟩, ⟨0, 1, 2, .declined, 0, none⟩]⟩,
        ⟨5, 2, 1, .pending, 9, none⟩) := by
  exact ⟨rfl, rfl⟩

/-- The schema constraint of `Connection.Meta`: no two rows share the same
ordered (requester, receiver) pair — `unique_together (requester, receiver)`. -/
def uniqueTogetherOk : List Connection → Bool
  | [] => true
  | c :: rest =>
    rest.all (fun d => !(d.requester == c.requester && d.receiver == c.receiver)) &&
    uniqueTogetherOk rest

/-- Orientation-independent uniqueness, as the spec words it: no two
stored rows with status in {pending, accepted} over the same unordered
pair, regardless of which user is requester.  (Written from the spec, to
compare with the schema constraint actually declared in `models.py`.) -/
def symmetricUniqueOk : List Connection → Bool
  | [] => true
  | c :: rest =>
    rest.all (fun d =>
      !((c.status == .pending || c.status == .accepted) &&
        (d.status == .pending || d.status == .accepted) &&
        involvesPair d c.requester c.receiver)) &&
    symmetricUniqueOk rest

/-- C3 counterexample.  Two pending connections over the same unordered
pair {1, 2} in opposite orientations satisfy the declared
`unique_together (requester, receiver)` schema constraint while
violating orientation-independent uniqueness: the database schema does NOT
forbid two simultaneously stored active connections over the pair when the
application-level existence check is bypassed. -/
theorem uniqueTogether_not_orientation_independent :
    uniqueTogetherOk [⟨0, 1, 2, .pending, 0, none⟩, ⟨1, 2, 1, .pending, 0, none⟩] = true ∧
    symmetricUniqueOk [⟨0, 1, 2, .pending, 0, none⟩, ⟨1, 2, 1, .pending, 0, none⟩] = false := by
  decide

/-- C3 amended.  The persistence layer enforces uniqueness only of the
ordered (requester, receiver) pair: a successful `requestConnection`
preserves the schema constraint (a duplicate ordered pair is rejected with
IntegrityError before insertion), while orientation-independent uniqueness
of active pairs is enforced only by the application-level both-directions
check, not by the schema. -/
theorem requestConnection_preserves_uniqueTogether
    (s s₁ : Store) (A B : UserId) (nid ts : Nat) (c : Connection)
    (hok : requestConnection s A B nid ts = .ok (s₁, c))
    (huniq : uniqueTogetherOk s.connections = true) :
    uniqueTogetherOk s₁.connections = true := by
  unfold requestConnection at hok
  split at hok
  · exact absurd hok (by simp)
  split at hok
  · exact absurd hok (by simp)
  split at hok
  · exact absurd hok (by simp)
  split at hok
  · exact absurd hok (by simp)
  rename_i hdup
  simp only [Except.ok.injEq, Prod.mk.injEq] at hok
  obtain ⟨hs₁, hc⟩ := hok
  rw [← hs₁]
  show (uniqueTogetherOk
    (⟨nid, A, B, .pending, ts, none⟩ :: s.connections) = true)
  unfold uniqueTogetherOk
  rw [Bool.and_eq_true]
  refine ⟨List.all_eq_true.mpr ?_, huniq⟩
  intro d hd
  have hne : ¬(d.requester == A && d.receiver == B) = true := by
    intro hcontra
    exact hdup (List.any_eq_true.mpr ⟨d, hd, hcontra⟩)
  cases hdb : (d.requester == A && d.receiver == B) with
  | false => simp [hdb]
  | true => exact absurd hdb hne

/-- Concrete instance of the amended C3: a create into a store already
holding the opposite orientation keeps the schema constraint satisfied. -/
theorem requestConnection_preserves_uniqueTogether_witness :
    uniqueTogetherOk
      [Connection.mk 5 2 3 .pending 9 none, Connection.mk 0 3 2 .declined 0 none] = true :=
  requestConnection_preserves_uniqueTogether
    ⟨[2, 3], [⟨0, 3, 2, .declined, 0, none⟩]⟩
    ⟨[2, 3], [⟨5, 2, 3, .pending, 9, none⟩, ⟨0, 3, 2, .declined, 0, none⟩]⟩
    2 3 5 9 ⟨5, 2, 3, .pending, 9, none⟩ rfl (by decide)

/-- The `action` choice field of `ConnectionUpdateSerializer`. -/
inductive RespondAction
  | accept
  | decline
deriving DecidableEq, Repr

/-- Lookup `get_object_or_404(Connection, pk=pk)`: find the row by id. -/
def getConnection (s : Store) (pk : Nat) : Option Connection :=
  s.connections.find? fun c => c.id == pk

/-- `ConnectionManageView.get_object`: 404 for an unknown id, then
PermissionDenied when the calling user is neither requester nor receiver. -/
def manageGetObject (s : Store) (user : UserId) (pk : Nat) :
    Except ApiError Connection :=
  match getConnection s pk with
  | none => .error .notFound
  | some c =>
    if c.requester != user && c.receiver != user then
      .error (.permissionDenied "You are not involved in this connection.")
    else .ok c

/-- `ConnectionUpdateSerializer.update`: only the receiver of a pending
connection may accept or decline (otherwise a DRF ValidationError, HTTP
400); accept sets status accepted and `accepted_at` to now; decline sets
status declined (the delete alternative is commented out in the source, so
the method always returns the saved instance — the result is typed
`Option Connection` only to expose the None-check branch of the view). -/
def connectionUpdate (c : Connection) (user : UserId) (action : RespondAction)
    (now : Nat) : Except ApiError (Option Connection) :=
  if c.receiver != user || c.status != .pending then
    .error (.validationError "Action not allowed.")
  else
    match action with
    | .accept => .ok (some { c with status := .accepted, accepted_at := some now })
    | .decline => .ok (some { c with status := .declined })

/-- Outcome of the PUT handler: 200 with the updated connection, the 204
"Request declined." branch taken when the serializer returns None, or an
error response. -/
inductive PutResult
  | updated (c : Connection)
  | declineDeleted
  | httpError (e : ApiError)
deriving DecidableEq, Repr

/-- Persist a saved instance: replace the row carrying the same id. -/
def saveConn (s : Store) (old : Connection) (c' : Connection) : Store :=
  { s with connections := s.connections.map fun x => if x.id == old.id then c' else x }

/-- `ConnectionManageView.put`: get_object, then the update serializer;
a None result from the serializer would return 204, otherwise 200 with the
updated connection; errors leave the store untouched. -/
def connectionManagePut (s : Store) (user : UserId) (pk : Nat)
    (action : RespondAction) (now : Nat) : PutResult × Store :=
  match manageGetObject s user pk with
  | .error e => (.httpError e, s)
  | .ok c =>
    match connectionUpdate c user action now with
    | .error e => (.httpError e, s)
    | .ok none => (.declineDeleted, s)
    | .ok (some c') => (.updated c', saveConn s c c')

/-- Outcome of the DELETE handler: 204 after a cancel or a remove, the
explicit 403 Response, or an error from get_object. -/
inductive DeleteResult
  | cancelled
  | removed
  | forbidden
  | httpError (e : ApiError)
deriving DecidableEq, Repr

/-- `ConnectionManageView.delete`: cancel when the connection is pending
and the caller is the requester; remove when it is accepted and the caller
is either party; otherwise the explicit 403 Response.  Deletion removes
the row from the table. -/
def connectionManageDelete (s : Store) (user : UserId) (pk : Nat) :
    DeleteResult × Store :=
  match manageGetObject s user pk with
  | .error e => (.httpError e, s)
  | .ok c =>
    if c.status == .pending && c.requester == user then
      (.cancelled, { s with connections := s.connections.filter fun x => x.id != c.id })
    else if c.status == .accepted && (c.requester == user || c.receiver == user) then
      (.removed, { s with connections := s.connections.filter fun x => x.id != c.id })
    else
      (.forbidden, s)

theorem manageGetObject_found {s : Store} {pk : Nat} {c : Connection} (user : UserId)
    (hget : getConnection s pk = some c) :
    manageGetObject s user pk =
      (if c.requester != user && c.receiver != user then
        .error (.permissionDenied "You are not involved in this connection.")
      else .ok c) := by
  unfold manageGetObject
  rw [hget]

theorem connectionManagePut_stranger (s : Store) (user : UserId) (pk : Nat)
    (c : Connection) (action : RespondAction) (now : Nat)
    (hget : getConnection s pk = some c)
    (hinv : (c.requester != user && c.receiver != user) = true) :
    connectionManagePut s user pk action now =
      (.httpError (.permissionDenied "You are not involved in this connection."), s) := by
  unfold connectionManagePut
  rw [manageGetObject_found user hget, hinv]
  simp

theorem connectionManagePut_involved (s : Store) (user : UserId) (pk : Nat)
    (c : Connection) (action : RespondAction) (now : Nat)
    (hget : getConnection s pk = some c)
    (hinv : (c.requester != user && c.receiver != user) = false) :
    connectionManagePut s user pk action now =
      (match connectionUpdate c user action now with
        | .error e => (.httpError e, s)
        | .ok none => (.declineDeleted, s)
        | .ok (some c') => (.updated c', saveConn s c c')) := by
  unfold connectionManagePut
  rw [manageGetObject_found user hget, hinv]
  simp

theorem connectionManageDelete_stranger (s : Store) (user : UserId) (pk : Nat)
    (c : Connection)
    (hget : getConnection s pk = some c)
    (hinv : (c.requester != user && c.receiver != user) = true) :
    connectionManageDelete s user pk =
      (.httpError (.permissionDenied "You are not involved in this connection."), s) := by
  unfold connectionManageDelete
  rw [manageGetObject_found user hget, hinv]
  simp

theorem connectionManageDelete_involved (s : Store) (user : UserId) (pk : Nat)
    (c : Connection)
    (hget : getConnection s pk = some c)
    (hinv : (c.requester != user && c.receiver != user) = false) :
    connectionManageDelete s user pk =
      (if c.status == .pending && c.requester == user then
        (.cancelled, { s with connections := s.connections.filter fun x => x.id != c.id })
      else if c.status == .accepted && (c.requester == user || c.receiver == user) then
        (.removed, { s with connections := s.connections.filter fun x => x.id != c.id })
      else (.forbidden, s)) := by
  unfold connectionManageDelete
  rw [manageGetObject_found user hget, hinv]
  simp

/-- C4 counterexample.  A pending connection 1→2 and the requester (user 1)
attempting accept: the failure comes from the update serializer as a DRF
ValidationError surfacing as HTTP 400 — not a PermissionError/403 — so the
claim that every such failure is a PermissionError is false at this input. -/
theorem respond_nonreceiver_fails_with_validation_not_permission :
    (connectionManagePut ⟨[1, 2], [⟨0, 1, 2, .pending, 0, none⟩]⟩ 1 0 .accept 9).1 =
      .httpError (.validationError "Action not allowed.") ∧
    ApiError.isPermissionDeniedErr (.validationError "Action not allowed.") = false ∧
    ApiError.httpStatus (.validationError "Action not allowed.") = 400 :=
  ⟨rfl, rfl, rfl⟩

/-- C4 amended.  Whenever the acting user is not the receiver or the
status is not pending, the PUT fails and the store — hence the
status of the connection, `accepted_at` and every other field — is unchanged;
the error is the 403 PermissionDenied only when the actor is a stranger to
the connection, and the HTTP 400 ValidationError "Action not allowed."
when an involved actor is not the receiver or the status is not pending. -/
theorem respondToConnection_failure_leaves_store_unchanged
    (s : Store) (user : UserId) (pk : Nat) (c : Connection)
    (action : RespondAction) (now : Nat)
    (hget : getConnection s pk = some c)
    (hfail : user ≠ c.receiver ∨ c.status ≠ .pending) :
    (c.requester ≠ user ∧ c.receiver ≠ user →
      connectionManagePut s user pk action now =
        (.httpError (.permissionDenied "You are not involved in this connection."), s)) ∧
    ((c.requester = user ∨ c.receiver = user) →
      connectionManagePut s user pk action now =
        (.httpError (.validationError "Action not allowed."), s)) := by
  have hup : connectionUpdate c user action now =
      .error (.validationError "Action not allowed.") := by
    unfold connectionUpdate
    have hcond : (c.receiver != user || c.status != ConnStatus.pending) = true := by
      cases hfail with
      | inl h => simp [bne_iff_ne, Ne.symm h]
      | inr h => simp [bne_iff_ne, h]
    rw [hcond]
    simp
  constructor
  · intro h
    have hcond : (c.requester != user && c.receiver != user) = true := by
      simp [bne_iff_ne, h.1, h.2]
    exact connectionManagePut_stranger s user pk c action now hget hcond
  · intro h
    have hcond : (c.requester != user && c.receiver != user) = false := by
      cases h with
      | inl h => simp [h]
      | inr h => simp [h]
    rw [connectionManagePut_involved s user pk c action now hget hcond, hup]

/-- Concrete instance of the amended C4: the requester of a pending
connection attempting accept gets the 400 ValidationError and the store is
unchanged. -/
theorem respondToConnection_failure_witness :
    connectionManagePut ⟨[1, 2], [⟨0, 1, 2, .pending, 0, none⟩]⟩ 1 0 .accept 9 =
      (.httpError (.validationError "Action not allowed."),
       ⟨[1, 2], [⟨0, 1, 2, .pending, 0, none⟩]⟩) :=
  (respondToConnection_failure_leaves_store_unchanged
    ⟨[1, 2], [⟨0, 1, 2, .pending, 0, none⟩]⟩ 1 0
    ⟨0, 1, 2, .pending, 0, none⟩ .accept 9 rfl (Or.inl (by decide))).2
    (Or.inl rfl)

theorem find?_map_update (l : List Connection) (pk : Nat) (c c' : Connection)
    (hid : c'.id = c.id)
    (h : l.find? (fun x => x.id == pk) = some c) :
    (l.map fun x => if x.id == c.id then c' else x).find?
      (fun x => x.id == pk) = some c' := by
  induction l with
  | nil => simp at h
  | cons x t ih =>
    rcases hx : (x.id == pk) with _ | _
    · simp only [List.find?, hx] at h
      have hcid0 := List.find?_some h
      have hcid : (c.id == pk) = true := hcid0
      have hxcid : (x.id == c.id) = false := by
        rcases hb : (x.id == c.id) with _ | _
        · rfl
        · exfalso
          have hxe : x.id = c.id := by simpa using hb
          have hxpk : (x.id == pk) = true := by rw [hxe]; exact hcid
          rw [hx] at hxpk
          exact Bool.false_ne_true hxpk
      simp only [List.map_cons, hxcid, Bool.false_eq_true, if_false, List.find?, hx]
      exact ih h
    · simp only [List.find?, hx] at h
      have hxc : x = c := by simpa using h
      subst hxc
      have hc'pk : (c'.id == pk) = true := by rw [hid]; exact hx
      simp [List.find?, hc'pk]

theorem connectionUpdate_never_none (c : Connection) (user : UserId)
    (action : RespondAction) (now : Nat) :
    connectionUpdate c user action now ≠ .ok none := by
  unfold connectionUpdate
  split
  · simp
  · cases action <;> simp

theorem connectionManagePut_result_cases (s : Store) (u : UserId) (pk : Nat)
    (a : RespondAction) (t : Nat) :
    (connectionManagePut s u pk a t).1 ≠ PutResult.declineDeleted := by
  unfold connectionManagePut
  cases hobj : manageGetObject s u pk with
  | error e => simp
  | ok c₂ =>
    have h2 : (match connectionUpdate c₂ u a t with
        | Except.error e => (PutResult.httpError e, s)
        | Except.ok none => (PutResult.declineDeleted, s)
        | Except.ok (some c') => (PutResult.updated c', saveConn s c₂ c')).1 ≠
        PutResult.declineDeleted := by
      cases hup : connectionUpdate c₂ u a t with
      | error e => simp
      | ok r =>
        cases r with
        | none => exact absurd hup (connectionUpdate_never_none c₂ u a t)
        | some c' => simp
    exact h2

/-- C10.  A decline by the receiver of a pending connection persists the
row: the PUT returns 200 with the connection saved as declined,
`accepted_at` stays null and `created_at` is unchanged, the row is still
found in the store afterwards, and the 204 deleted-on-decline view
branch is unreachable for every input. -/
theorem decline_persists_record
    (s : Store) (user : UserId) (pk : Nat) (c : Connection) (now : Nat)
    (hget : getConnection s pk = some c)
    (hrecv : c.receiver = user)
    (hpend : c.status = .pending)
    (hacc : c.accepted_at = none) :
    connectionManagePut s user pk .decline now =
      (.updated { c with status := .declined },
       saveConn s c { c with status := .declined }) ∧
    getConnection (connectionManagePut s user pk .decline now).2 pk =
      some { c with status := .declined } ∧
    ({ c with status := ConnStatus.declined }).accepted_at = none ∧
    ({ c with status := ConnStatus.declined }).created_at = c.created_at ∧
    (∀ s₂ u₂ pk₂ a₂ t₂, (connectionManagePut s₂ u₂ pk₂ a₂ t₂).1 ≠ .declineDeleted) := by
  have hinv : (c.requester != user && c.receiver != user) = false := by
    simp [hrecv]
  have hupd : connectionUpdate c user .decline now =
      .ok (some { c with status := .declined }) := by
    unfold connectionUpdate
    have hcond : (c.receiver != user || c.status != ConnStatus.pending) = false := by
      simp [hrecv, hpend]
    rw [hcond]
    simp
  have hput : connectionManagePut s user pk .decline now =
      (.updated { c with status := .declined },
       saveConn s c { c with status := .declined }) := by
    rw [connectionManagePut_involved s user pk c .decline now hget hinv, hupd]
  refine ⟨hput, ?_, hacc, rfl, ?_⟩
  · rw [hput]
    have hget' : List.find? (fun x => x.id == pk) s.connections = some c := hget
    exact find?_map_update s.connections pk c _ rfl hget'
  · exact fun s₂ u₂ pk₂ a₂ t₂ => connectionManagePut_result_cases s₂ u₂ pk₂ a₂ t₂

/-- Concrete instance of C10: user 2 declines the pending connection 1→2;
the row persists with status declined and null `accepted_at`. -/
theorem decline_persists_record_witness :
    connectionManagePut ⟨[1, 2], [⟨0, 1, 2, .pending, 0, none⟩]⟩ 2 0 .decline 7 =
      (.updated ⟨0, 1, 2, .declined, 0, none⟩,
       ⟨[1, 2], [⟨0, 1, 2, .declined, 0, none⟩]⟩) :=
  (decline_persists_record ⟨[1, 2], [⟨0, 1, 2, .pending, 0, none⟩]⟩ 2 0
    ⟨0, 1, 2, .pending, 0, none⟩ 7 rfl rfl rfl rfl).1

/-- C7.  For a stored connection and an acting user: a stranger to the
connection gets PermissionDenied; the requester of a pending connection
cancels (the row is deleted); either party of an accepted connection
removes it (the row is deleted); in every other case for an involved
actor — the receiver of a pending request, any party of a declined
connection — the DELETE answers the explicit 403 Response and the store is
unchanged. -/
theorem cancelOrRemove_spec
    (s : Store) (user : UserId) (pk : Nat) (c : Connection)
    (hget : getConnection s pk = some c) :
    (c.requester ≠ user → c.receiver ≠ user →
      connectionManageDelete s user pk =
        (.httpError (.permissionDenied "You are not involved in this connection."), s)) ∧
    (c.status = .pending → c.requester = user →
      (connectionManageDelete s user pk).1 = .cancelled ∧
      getConnection (connectionManageDelete s user pk).2 pk = none) ∧
    (c.status = .accepted → (c.requester = user ∨ c.receiver = user) →
      (connectionManageDelete s user pk).1 = .removed ∧
      getConnection (connectionManageDelete s user pk).2 pk = none) ∧
    ((c.requester = user ∨ c.receiver = user) →
      ¬(c.status = .pending ∧ c.requester = user) → c.status ≠ .accepted →
      connectionManageDelete s user pk = (.forbidden, s)) := by
  have hget' : List.find? (fun x => x.id == pk) s.connections = some c := hget
  have hcid0 := List.find?_some hget'
  have hcid : (c.id == pk) = true := hcid0
  have hdel : getConnection
      { s with connections := s.connections.filter fun x => x.id != c.id } pk = none := by
    unfold getConnection
    refine List.find?_eq_none.mpr ?_
    intro x hx
    have hxne : (x.id != c.id) = true := (List.mem_filter.mp hx).2
    have hxne' : x.id ≠ c.id := by simpa [bne_iff_ne] using hxne
    simp only [beq_iff_eq]
    intro hxpk
    exact hxne' (by rw [hxpk]; exact (beq_iff_eq.mp hcid).symm)
  refine ⟨?_, ?_, ?_, ?_⟩
  · intro hr hv
    have hcond : (c.requester != user && c.receiver != user) = true := by
      simp [bne_iff_ne, hr, hv]
    exact connectionManageDelete_stranger s user pk c hget hcond
  · intro hst hreq
    have hcond : (c.requester != user && c.receiver != user) = false := by
      simp [hreq]
    have hcancel : (c.status == ConnStatus.pending && c.requester == user) = true := by
      simp [hst, hreq]
    rw [connectionManageDelete_involved s user pk c hget hcond, hcancel]
    simp [hdel]
  · intro hst hinv
    have hcond : (c.requester != user && c.receiver != user) = false := by
      cases hinv with
      | inl h => simp [h]
      | inr h => simp [h]
    have hnotcancel : (c.status == ConnStatus.pending && c.requester == user) = false := by
      simp [hst]
    have hremove : (c.status == ConnStatus.accepted &&
        (c.requester == user || c.receiver == user)) = true := by
      cases hinv with
      | inl h => simp [hst, h]
      | inr h => simp [hst, h]
    rw [connectionManageDelete_involved s user pk c hget hcond, hnotcancel, hremove]
    simp [hdel]
  · intro hinv hnotcancel hnotacc
    have hcond : (c.requester != user && c.receiver != user) = false := by
      cases hinv with
      | inl h => simp [h]
      | inr h => simp [h]
    have h₁ : (c.status == ConnStatus.pending && c.requester == user) = false := by
      rcases hp : c.status == ConnStatus.pending with _ | _
      · simp
      · have hsp : c.status = .pending := beq_iff_eq.mp hp
        have hru : c.requester ≠ user := fun h => hnotcancel ⟨hsp, h⟩
        simp [hru]
    have h₂ : (c.status == ConnStatus.accepted &&
        (c.requester == user || c.receiver == user)) = false := by
      simp [hnotacc]
    rw [connectionManageDelete_involved s user pk c hget hcond, h₁, h₂]
    simp

/-- Concrete instance of C7: the receiver of a pending request cannot
cancel it — the DELETE answers the explicit 403 and the row survives. -/
theorem cancelOrRemove_spec_witness :
    connectionManageDelete ⟨[1, 2], [⟨0, 1, 2, .pending, 0, none⟩]⟩ 2 0 =
      (.forbidden, ⟨[1, 2], [⟨0, 1, 2, .pending, 0, none⟩]⟩) :=
  (cancelOrRemove_spec ⟨[1, 2], [⟨0, 1, 2, .pending, 0, none⟩]⟩ 2 0
    ⟨0, 1, 2, .pending, 0, none⟩ rfl).2.2.2 (Or.inr rfl)
    (by decide) (by decide)

/-- C5 counterexample.  A request whose target user id (2) does not exist:
the serializer raises a DRF ValidationError, which surfaces as HTTP 400 —
not as a 404 NotFoundError — so the claim that the unknown-target failure
reaches the caller as 404 is false at this input. -/
theorem request_unknown_target_is_400_not_404 :
    requestConnection ⟨[1], []⟩ 1 2 0 0 =
      .error (.validationError "Target user does not exist.") ∧
    ApiError.httpStatus (.validationError "Target user does not exist.") = 400 ∧
    ApiError.isNotFoundErr (.validationError "Target user does not exist.") = false :=
  ⟨rfl, rfl, rfl⟩

/-- C5 amended.  A requestConnection whose receiver id does not resolve to
an existing user fails with the serializer ValidationError "Target user
does not exist.", surfaced to the HTTP caller as status 400 (DRF
validation), not 404. -/
theorem request_unknown_target_validation_error
    (s : Store) (A B : UserId) (nid ts : Nat) (h : B ∉ s.users) :
    requestConnection s A B nid ts =
      .error (.validationError "Target user does not exist.") ∧
    ApiError.httpStatus (.validationError "Target user does not exist.") = 400 := by
  refine ⟨?_, rfl⟩
  unfold requestConnection
  have hcont : s.users.contains B = false := by
    rcases hb : s.users.contains B with _ | _
    · rfl
    · exact absurd (List.elem_iff.mp hb) h
  rw [hcont]
  simp

/-- Concrete instance of the amended C5. -/
theorem request_unknown_target_validation_error_witness :
    requestConnection ⟨[1], []⟩ 1 2 0 0 =
      .error (.validationError "Target user does not exist.") :=
  (request_unknown_target_validation_error ⟨[1], []⟩ 1 2 0 0 (by decide)).1

/-- The relationship labels computed by `ProfileSerializer.get_connectionStatus`. -/
inductive RelStatus
  | self
  | connected
  | pending_sent
  | pending_received
  | none
deriving DecidableEq, Repr

/-- The Q-object filter of `get_connectionStatus`: all connections over
the unordered pair {u, p}. -/
def pairConnections (s : Store) (u p : UserId) : List Connection :=
  s.connections.filter fun c => involvesPair c u p

/-- Model of `.first()` under the model Meta ordering `-created_at`: the
stored row with the greatest `created_at` (earlier row wins ties). -/
def firstByCreatedDesc : List Connection → Option Connection
  | [] => Option.none
  | c :: rest =>
    match firstByCreatedDesc rest with
    | Option.none => some c
    | Option.some b => if b.created_at > c.created_at then some b else some c

/-- `ProfileSerializer.get_connectionStatus`: none for an unauthenticated
viewer; self when a user views the profile they own; otherwise classify the first
connection over the unordered pair (accepted → connected, pending →
sent/received depending on the requester, anything else → none). -/
def get_connectionStatus (s : Store) (viewer : Option UserId)
    (profile_user : UserId) : RelStatus :=
  match viewer with
  | Option.none => .none
  | Option.some user =>
    if user == profile_user then .self
    else
      match firstByCreatedDesc (pairConnections s user profile_user) with
      | Option.none => .none
      | Option.some c =>
        if c.status == .accepted then .connected
        else if c.status == .pending then
          if c.requester == user then .pending_sent else .pending_received
        else .none

theorem get_connectionStatus_some (s : Store) (v t : UserId) :
    get_connectionStatus s (some v) t =
      (if v == t then RelStatus.self
      else
        match firstByCreatedDesc (pairConnections s v t) with
        | Option.none => RelStatus.none
        | Option.some c =>
          if c.status == .accepted then .connected
          else if c.status == .pending then
            if c.requester == v then .pending_sent else .pending_received
          else .none) := rfl

/-- C6.  relationshipStatus: none for an unauthenticated viewer; self when
viewer = target; none when no connection exists over the unordered pair;
and when exactly one connection exists: connected for accepted,
pending_sent / pending_received for pending depending on whether the
viewer is the requester, none for declined. -/
theorem relationshipStatus_spec (s : Store) (v t : UserId) :
    get_connectionStatus s Option.none t = RelStatus.none ∧
    (v = t → get_connectionStatus s (some v) t = RelStatus.self) ∧
    (v ≠ t → pairConnections s v t = [] →
      get_connectionStatus s (some v) t = RelStatus.none) ∧
    (∀ c, v ≠ t → pairConnections s v t = [c] →
      (c.status = .accepted → get_connectionStatus s (some v) t = RelStatus.connected) ∧
      (c.status = .pending → c.requester = v →
        get_connectionStatus s (some v) t = RelStatus.pending_sent) ∧
      (c.status = .pending → c.requester ≠ v →
        get_connectionStatus s (some v) t = RelStatus.pending_received) ∧
      (c.status = .declined → get_connectionStatus s (some v) t = RelStatus.none)) := by
  refine ⟨rfl, ?_, ?_, ?_⟩
  · intro hvt
    rw [get_connectionStatus_some]
    simp [hvt]
  · intro hvt hempty
    have hbeq : (v == t) = false := by simp [hvt]
    rw [get_connectionStatus_some, hbeq, hempty]
    simp [firstByCreatedDesc]
  · intro c hvt hone
    have hbeq : (v == t) = false := by simp [hvt]
    have hfirst : firstByCreatedDesc (pairConnections s v t) = some c := by
      rw [hone]; rfl
    refine ⟨?_, ?_, ?_, ?_⟩
    · intro hst
      rw [get_connectionStatus_some, hbeq, hfirst]
      simp [hst]
    · intro hst hreq
      rw [get_connectionStatus_some, hbeq, hfirst]
      simp [hst, hreq]
    · intro hst hreq
      rw [get_connectionStatus_some, hbeq, hfirst]
      simp [hst, hreq]
    · intro hst
      rw [get_connectionStatus_some, hbeq, hfirst]
      simp [hst]

/-- Concrete instance of C6: user 1 sent a pending request to user 2, so
user 1 viewing the profile of user 2 sees pending_sent. -/
theorem relationshipStatus_spec_witness :
    get_connectionStatus ⟨[1, 2], [⟨0, 1, 2, .pending, 0, none⟩]⟩ (some 1) 2 =
      RelStatus.pending_sent :=
  ((relationshipStatus_spec ⟨[1, 2], [⟨0, 1, 2, .pending, 0, none⟩]⟩ 1 2).2.2.2
    ⟨0, 1, 2, .pending, 0, none⟩ (by decide) (by decide)).2.1 rfl rfl

/-- The sort key of `ConnectionListView.get`: the Python
expression `x.accepted_at or x.created_at`. -/
def connSortKey (c : Connection) : Nat :=
  c.accepted_at.getD c.created_at

/-- Descending comparison on the sort key (`reverse=True`). -/
def connGE (a b : Connection) : Bool :=
  decide (connSortKey b ≤ connSortKey a)

/-- `ConnectionListView.get`: incoming = pending rows received by the
user; outgoing = pending rows the user sent; current = accepted rows the
user sent plus accepted rows the user received, combined and stably sorted
descending by `accepted_at or created_at`. -/
def connectionListGet (s : Store) (user : UserId) :
    List Connection × List Connection × List Connection :=
  let incoming := s.connections.filter fun c => c.receiver == user && c.status == .pending
  let outgoing := s.connections.filter fun c => c.requester == user && c.status == .pending
  let current_sent := s.connections.filter fun c => c.requester == user && c.status == .accepted
  let current_received := s.connections.filter fun c => c.receiver == user && c.status == .accepted
  (incoming, outgoing, (current_sent ++ current_received).mergeSort connGE)

theorem filter_append_perm_disjoint {α : Type} (p q : α → Bool) (l : List α)
    (h : ∀ a ∈ l, ¬(p a = true ∧ q a = true)) :
    (l.filter p ++ l.filter q).Perm (l.filter fun a => p a || q a) := by
  induction l with
  | nil => simp
  | cons x t ih =>
    have ht : ∀ a ∈ t, ¬(p a = true ∧ q a = true) :=
      fun a ha => h a (List.mem_cons_of_mem _ ha)
    rcases hp : p x with _ | _
    · rcases hq : q x with _ | _
      · simp only [List.filter_cons, hp, hq, Bool.false_or, Bool.false_eq_true, if_false]
        exact ih ht
      · simp only [List.filter_cons, hp, hq, Bool.false_or, Bool.false_eq_true, if_false,
          if_true]
        exact List.perm_middle.trans ((ih ht).cons x)
    · have hq : q x = false := by
        rcases hqq : q x with _ | _
        · rfl
        · exact absurd ⟨hp, hqq⟩ (h x (List.mem_cons_self x t))
      simp only [List.filter_cons, hp, hq, Bool.true_or, Bool.false_eq_true, if_false,
        if_true]
      exact (ih ht).cons x

/-- C8.  listConnections: incoming holds exactly the pending connections
received by the user, outgoing exactly the pending connections the user
sent, and current is a permutation of the accepted connections involving
the user, ordered descending by `accepted_at`, falling back to
`created_at` when `accepted_at` is null.  (The no-self-connection
invariant is assumed so a row cannot be counted both as sent and as
received.) -/
theorem listConnections_spec (s : Store) (u : UserId)
    (hns : ∀ c ∈ s.connections, c.requester ≠ c.receiver) :
    (∀ c, c ∈ (connectionListGet s u).1 ↔
      c ∈ s.connections ∧ c.receiver = u ∧ c.status = .pending) ∧
    (∀ c, c ∈ (connectionListGet s u).2.1 ↔
      c ∈ s.connections ∧ c.requester = u ∧ c.status = .pending) ∧
    ((connectionListGet s u).2.2).Perm
      (s.connections.filter fun c =>
        (c.requester == u || c.receiver == u) && c.status == .accepted) ∧
    List.Pairwise (fun a b => connSortKey b ≤ connSortKey a)
      (connectionListGet s u).2.2 := by
  refine ⟨?_, ?_, ?_, ?_⟩
  · intro c
    constructor
    · intro hc
      have h2 := List.mem_filter.mp hc
      refine ⟨h2.1, ?_, ?_⟩
      · have := h2.2
        simp only [Bool.and_eq_true, beq_iff_eq] at this
        exact this.1
      · have := h2.2
        simp only [Bool.and_eq_true, beq_iff_eq] at this
        exact this.2
    · intro ⟨hmem, hrecv, hst⟩
      exact List.mem_filter.mpr ⟨hmem, by simp [hrecv, hst]⟩
  · intro c
    constructor
    · intro hc
      have h2 := List.mem_filter.mp hc
      refine ⟨h2.1, ?_, ?_⟩
      · have := h2.2
        simp only [Bool.and_eq_true, beq_iff_eq] at this
        exact this.1
      · have := h2.2
        simp only [Bool.and_eq_true, beq_iff_eq] at this
        exact this.2
    · intro ⟨hmem, hreq, hst⟩
      exact List.mem_filter.mpr ⟨hmem, by simp [hreq, hst]⟩
  · have hdisj : ∀ c ∈ s.connections,
        ¬((c.requester == u && c.status == ConnStatus.accepted) = true ∧
          (c.receiver == u && c.status == ConnStatus.accepted) = true) := by
      intro c hc hcontra
      obtain ⟨h1, h2⟩ := hcontra
      simp only [Bool.and_eq_true, beq_iff_eq] at h1 h2
      exact hns c hc (h1.1.trans h2.1.symm)
    have hperm1 := List.mergeSort_perm
      ((s.connections.filter fun c => c.requester == u && c.status == .accepted) ++
       (s.connections.filter fun c => c.receiver == u && c.status == .accepted)) connGE
    have hperm2 := filter_append_perm_disjoint
      (fun c => c.requester == u && c.status == .accepted)
      (fun c => c.receiver == u && c.status == .accepted) s.connections hdisj
    have hsame : (s.connections.filter fun c =>
        (c.requester == u && c.status == ConnStatus.accepted) ||
        (c.receiver == u && c.status == ConnStatus.accepted)) =
        (s.connections.filter fun c =>
          (c.requester == u || c.receiver == u) && c.status == ConnStatus.accepted) := by
      refine List.filter_congr ?_
      intro c hc
      rcases (c.requester == u) with _ | _ <;>
        rcases (c.receiver == u) with _ | _ <;>
        rcases (c.status == ConnStatus.accepted) with _ | _ <;> rfl
    exact (hperm1.trans hperm2).trans (hsame ▸ List.Perm.refl _)
  · have hsorted := @List.sorted_mergeSort Connection connGE
      (fun a b c hab hbc => by
        simp only [connGE, decide_eq_true_eq] at hab hbc ⊢
        exact le_trans hbc hab)
      (fun a b => by
        simp only [connGE, Bool.or_eq_true, decide_eq_true_eq]
        exact (Nat.le_total (connSortKey b) (connSortKey a)))
      ((s.connections.filter fun c => c.requester == u && c.status == .accepted) ++
       (s.connections.filter fun c => c.receiver == u && c.status == .accepted))
    refine hsorted.imp ?_
    intro a b hab
    simpa [connGE] using hab

/-- Concrete instance of C8: user 1 has two accepted connections; the
current list is sorted descending by acceptance time. -/
theorem listConnections_spec_witness :
    List.Pairwise (fun a b => connSortKey b ≤ connSortKey a)
      (connectionListGet
        ⟨[1, 2, 3], [⟨1, 1, 2, .accepted, 0, some 5⟩, ⟨2, 3, 1, .accepted, 1, some 7⟩]⟩
        1).2.2 :=
  (listConnections_spec
    ⟨[1, 2, 3], [⟨1, 1, 2, .accepted, 0, some 5⟩, ⟨2, 3, 1, .accepted, 1, some 7⟩]⟩
    1 (by decide)).2.2.2

/-- Character-list model of the Python strings handled by the profile
skills code. -/
abbrev Str := List Char

/-- Python `str.split(',')`: split into the comma-separated chunks
(an empty string yields one empty chunk). -/
def splitOnComma : Str → List Str
  | [] => [[]]
  | ch :: rest =>
    match splitOnComma rest with
    | [] => [[]]
    | h :: t => if ch = ',' then [] :: h :: t else (ch :: h) :: t

/-- Python `str.strip()`: drop leading and trailing whitespace. -/
def trimChars (s : Str) : Str :=
  ((s.dropWhile Char.isWhitespace).reverse.dropWhile Char.isWhitespace).reverse

/-- Python `",".join(entries)`: the canonical comma-joined transmission
form of a skills list. -/
def joinComma : List Str → Str
  | [] => []
  | [s] => s
  | s :: t :: rest => s ++ ',' :: joinComma (t :: rest)

/-- `Profile.get_skills_list` (`models.py`): empty field gives the empty
list; otherwise split on commas, strip each chunk, and keep only chunks
that strip to something non-empty. -/
def get_skills_list (skills : Str) : List Str :=
  if skills.isEmpty then []
  else ((splitOnComma skills).map trimChars).filter fun s => !s.isEmpty

/-- The profile fields the skills round-trip touches. -/
structure Profile where
  skills : Str
  interests : Str
deriving DecidableEq, Repr

/-- `ProfileSerializer.update`: the provided comma-separated strings are
stored verbatim (`validated_data.get` with the current value as default);
absent fields keep their previous value. -/
def profileUpdate (p : Profile) (skillsIn : Option Str) (interestsIn : Option Str) :
    Profile :=
  { p with
    skills := skillsIn.getD p.skills,
    interests := interestsIn.getD p.interests }

theorem splitOnComma_cons (ch : Char) (rest : Str) :
    splitOnComma (ch :: rest) =
      (match splitOnComma rest with
      | [] => [[]]
      | h :: t => if ch = ',' then [] :: h :: t else (ch :: h) :: t) := rfl

theorem splitOnComma_ne_nil (l : Str) : splitOnComma l ≠ [] := by
  induction l with
  | nil => simp [splitOnComma]
  | cons ch rest ih =>
    rw [splitOnComma_cons]
    cases hr : splitOnComma rest with
    | nil => simp
    | cons h t =>
      by_cases hch : ch = ','
      · simp [hch]
      · simp [hch]

theorem splitOnComma_no_comma (l : Str) (h : ',' ∉ l) : splitOnComma l = [l] := by
  induction l with
  | nil => rfl
  | cons ch rest ih =>
    have hch : ch ≠ ',' := fun he => h (he ▸ List.mem_cons_self _ _)
    have hrest : ',' ∉ rest := fun hm => h (List.mem_cons_of_mem _ hm)
    rw [splitOnComma_cons, ih hrest]
    simp [hch]

theorem splitOnComma_append (a rest : Str) (h : ',' ∉ a) :
    splitOnComma (a ++ ',' :: rest) = a :: splitOnComma rest := by
  induction a with
  | nil =>
    simp only [List.nil_append]
    rw [splitOnComma_cons]
    cases hr : splitOnComma rest with
    | nil => exact absurd hr (splitOnComma_ne_nil rest)
    | cons h1 t1 => simp
  | cons ch a' ih =>
    have hch : ch ≠ ',' := fun he => h (he ▸ List.mem_cons_self _ _)
    have ha' : ',' ∉ a' := fun hm => h (List.mem_cons_of_mem _ hm)
    simp only [List.cons_append]
    rw [splitOnComma_cons, ih ha']
    simp [hch]

theorem splitOnComma_joinComma (l : List Str) (h : ∀ s ∈ l, ',' ∉ s)
    (hne : l ≠ []) : splitOnComma (joinComma l) = l := by
  induction l with
  | nil => exact absurd rfl hne
  | cons s rest ih =>
    cases rest with
    | nil => exact splitOnComma_no_comma s (h s (List.mem_cons_self _ _))
    | cons t ts =>
      show splitOnComma (s ++ ',' :: joinComma (t :: ts)) = s :: (t :: ts)
      rw [splitOnComma_append s _ (h s (List.mem_cons_self _ _))]
      rw [ih (fun x hx => h x (List.mem_cons_of_mem _ hx)) (by simp)]

/-- C9.  Saving a skills list through a profile update (in its canonical
comma-joined transmission form) and reading it back with
`get_skills_list` yields the entries stripped of surrounding whitespace,
with entries that strip to empty dropped, in their original order.  The
hypothesis that no entry contains a comma delimits the lists that the
comma-joined transmission form can represent. -/
theorem skills_roundtrip (p : Profile) (l : List Str)
    (h : ∀ s ∈ l, ',' ∉ s) :
    get_skills_list (profileUpdate p (some (joinComma l)) none).skills =
      (l.map trimChars).filter (fun s => !s.isEmpty) := by
  show get_skills_list (joinComma l) = (l.map trimChars).filter (fun s => !s.isEmpty)
  cases l with
  | nil => rfl
  | cons s rest =>
    cases rest with
    | nil =>
      cases s with
      | nil => rfl
      | cons c s' =>
        have hje : (joinComma [c :: s']).isEmpty = false := rfl
        unfold get_skills_list
        rw [hje]
        simp only [Bool.false_eq_true, if_false]
        have hj : joinComma [c :: s'] = c :: s' := rfl
        rw [hj, splitOnComma_no_comma (c :: s') (h (c :: s') (List.mem_cons_self _ _))]
    | cons t ts =>
      have hje : (joinComma (s :: t :: ts)).isEmpty = false := by
        show ((s ++ ',' :: joinComma (t :: ts)).isEmpty = false)
        cases s <;> rfl
      unfold get_skills_list
      rw [hje]
      simp only [Bool.false_eq_true, if_false]
      rw [splitOnComma_joinComma (s :: t :: ts) h (by simp)]

/-- Concrete instance of C9: saving ["Python", " Go ", ""] and reading the
list back yields ["Python", "Go"]. -/
theorem skills_roundtrip_witness :
    get_skills_list
      (profileUpdate ⟨[], []⟩
        (some (joinComma ["Python".data, " Go ".data, "".data])) none).skills =
      ["Python".data, "Go".data] :=
  (skills_roundtrip ⟨[], []⟩ ["Python".data, " Go ".data, "".data]
    (by decide)).trans (by decide)

end MentorNook
